import Mathlib

/-!
Shallow embedding of the sigslot11 signal/slot library (src/sigslot11.h).

Receivers and emitters are identified by natural numbers.  A connection
record (`Connection<Dest, Args...>`) stores its destination receiver
(`m_pobject`) and its handler (`m_pmemfun`), both modelled as identifiers.
An emitter's `m_connected_slots` is an ordered list of records
(`std::list<ConnectionBase*>`); a receiver's `m_senders` is a set of
emitters (`std::set<SignalInterface*>`), modelled as a duplicate-free list
whose insert is a no-op when the element is present.

Each member function of `Signal` and `Connectable` becomes a state
transformer on a global state `St` holding every emitter's list and every
receiver's senders set.  `Emit` is modelled by the invocation trace it
produces (the handlers themselves perform no state mutation, matching the
spec's "no handler mutating the list during the pass" proviso).
-/

namespace SigSlot

/-- A connection record: `Connection<Dest, Args...>` holds the target
receiver `m_pobject` (here `dest`) and the member-function pointer
`m_pmemfun` (here `handler`). -/
structure Conn where
  dest : Nat
  handler : Nat
deriving DecidableEq, Repr

/-- `std::set::insert`: a no-op when the key is already present. -/
def setInsert (e : Nat) (l : List Nat) : List Nat :=
  if e ∈ l then l else e :: l

/-- Pointwise update of a function at one key. -/
def updateFn {α : Type} (f : Nat → α) (k : Nat) (v : α) : Nat → α :=
  fun x => if x = k then v else f x

/-- Global state: `emitters e` is emitter `e`'s `m_connected_slots` list,
`senders r` is receiver `r`'s `m_senders` set. -/
structure St where
  emitters : Nat → List Conn
  senders : Nat → List Nat

/-- The state with no connections at all. -/
def St.empty : St := ⟨fun _ => [], fun _ => []⟩

/-- `Connectable::SignalConnect(sender)`: `m_senders.insert(sender)`. -/
def signalConnect (r e : Nat) (st : St) : St :=
  { st with senders := updateFn st.senders r (setInsert e (st.senders r)) }

/-- `Connectable::SignalDisconnect(sender)`: `m_senders.erase(sender)`. -/
def signalDisconnect (r e : Nat) (st : St) : St :=
  { st with senders := updateFn st.senders r ((st.senders r).erase e) }

/-- `Signal::Connect(pclass, pmemfun)`: push a new record onto the back of
`m_connected_slots`, then `pclass->SignalConnect(this)`. -/
def Connect (e r h : Nat) (st : St) : St :=
  signalConnect r e
    { st with emitters := updateFn st.emitters e (st.emitters e ++ [⟨r, h⟩]) }

/-- Does list `l` hold a record whose `GetDest()` is `r`? -/
def hasTo (r : Nat) (l : List Conn) : Bool :=
  l.any (fun c => c.dest == r)

/-- Number of records in `l` targeting `r`. -/
def countTo (r : Nat) (l : List Conn) : Nat :=
  l.countP (fun c => c.dest == r)

/-- Remove the first record targeting `r`; the list is unchanged when no
record targets `r` (the erase performed by `Signal::Disconnect`). -/
def eraseFirstTo (r : Nat) : List Conn → List Conn
  | [] => []
  | c :: rest => if c.dest = r then rest else c :: eraseFirstTo r rest

/-- `Signal::Disconnect(pslot)`: scan `m_connected_slots` for the first
record whose dest is `pslot`; if found, erase that one record and call
`pslot->SignalDisconnect(this)`, then break.  When no record matches,
nothing happens (the loop falls through). -/
def Disconnect (e r : Nat) (st : St) : St :=
  if hasTo r (st.emitters e) then
    signalDisconnect r e
      { st with emitters := updateFn st.emitters e (eraseFirstTo r (st.emitters e)) }
  else st

/-- `Signal::SlotDisconnect(pslot)`: walk `m_connected_slots`, erasing
every record whose dest is `pslot`.  `m_senders` of `pslot` is not
touched by this function. -/
def SlotDisconnect (e r : Nat) (st : St) : St :=
  { st with emitters :=
      updateFn st.emitters e ((st.emitters e).filter (fun c => c.dest != r)) }

/-- The records appended by `Signal::SlotDuplicate(oldtarget, newtarget)`:
one `slot->Duplicate(newtarget)` (same `m_pmemfun`, dest replaced by
`newtarget`) for each record of the original list whose dest is
`oldtarget`, in list order. -/
def dups (oldt newt : Nat) : List Conn → List Conn
  | [] => []
  | c :: rest =>
      if c.dest = oldt then ⟨newt, c.handler⟩ :: dups oldt newt rest
      else dups oldt newt rest

/-- `Signal::SlotDuplicate(oldtarget, newtarget)`: for each record whose
dest is `oldtarget`, push `slot->Duplicate(newtarget)` onto the back of
`m_connected_slots`.  (The appended records target `newtarget`, so for
`newtarget ≠ oldtarget` they are skipped when the iteration reaches
them.) -/
def SlotDuplicate (e oldt newt : Nat) (st : St) : St :=
  { st with emitters :=
      updateFn st.emitters e (st.emitters e ++ dups oldt newt (st.emitters e)) }

/-- `Signal::DisconnectAll` as run by `~Signal`: for every record,
`slot->GetDest()->SignalDisconnect(this)` (so `e` is erased from the
senders set of every receiver some record targets), then the list is
cleared. -/
def destroyEmitter (e : Nat) (st : St) : St :=
  { emitters := updateFn st.emitters e [],
    senders := fun r =>
      if hasTo r (st.emitters e) then (st.senders r).erase e
      else st.senders r }

/-- `Connectable::DisconnectAll` as run by `~Connectable`: every emitter in
`m_senders` runs `SlotDisconnect(this)` (dropping all its records targeting
`r`), then `m_senders` is cleared. -/
def destroyReceiver (r : Nat) (st : St) : St :=
  { emitters := fun e =>
      if e ∈ st.senders r then (st.emitters e).filter (fun c => c.dest != r)
      else st.emitters e,
    senders := updateFn st.senders r [] }

/-- `Connectable(Connectable const &src)`: the new receiver `newr` starts
with empty `m_senders`; for each `sender` of `src`,
`sender->SlotDuplicate(&src, this)` appends duplicates targeting `newr`,
and `SignalConnect(sender)` inserts the sender into `newr`'s set. -/
def copyReceiver (src newr : Nat) (st : St) : St :=
  { emitters := fun e =>
      if e ∈ st.senders src then st.emitters e ++ dups src newr (st.emitters e)
      else st.emitters e,
    senders := updateFn st.senders newr
      ((st.senders src).foldl (fun acc s => setInsert s acc) (st.senders newr)) }

/-- `Signal(const Signal &src)`: the new emitter `newe` starts with an
empty list; for each record of `src`, `slot->GetDest()->SignalConnect(this)`
inserts `newe` into the dest's senders set, and `slot->Clone()` (same dest,
same handler) is pushed onto `newe`'s list, in order. -/
def copyEmitter (src newe : Nat) (st : St) : St :=
  { emitters := updateFn st.emitters newe (st.emitters newe ++ st.emitters src),
    senders := fun r =>
      if hasTo r (st.emitters src) then setInsert newe (st.senders r)
      else st.senders r }

/-- One handler invocation performed during an `Emit` pass: which record's
dest and handler were called, and with which arguments. -/
structure Invocation (α : Type) where
  dest : Nat
  handler : Nat
  args : α
deriving DecidableEq, Repr

/-- The invocation trace of the `Emit` loop over a connection list:
`for (auto &&slot : m_connected_slots) slot->Emit(args...)`. -/
def emitList {α : Type} (a : α) : List Conn → List (Invocation α)
  | [] => []
  | c :: rest => ⟨c.dest, c.handler, a⟩ :: emitList a rest

/-- `Signal::Emit(args...)`: invoke each record of `m_connected_slots` in
list order; no state is mutated (handlers are assumed not to touch the
list during the pass). -/
def Emit {α : Type} (e : Nat) (a : α) (st : St) : List (Invocation α) :=
  emitList a (st.emitters e)

/-- The bidirectional bookkeeping invariant of spec §3: every record's
target receiver lists the owning emitter among its senders. -/
def Inv (st : St) : Prop :=
  ∀ e r, hasTo r (st.emitters e) = true → e ∈ st.senders r

/-! ### Helper lemmas -/

@[simp]
theorem updateFn_same {α : Type} (f : Nat → α) (k : Nat) (v : α) :
    updateFn f k v k = v := by
  simp [updateFn]

theorem updateFn_other {α : Type} (f : Nat → α) {k x : Nat} (v : α) (h : x ≠ k) :
    updateFn f k v x = f x := by
  simp [updateFn, h]

theorem mem_setInsert {a b : Nat} {l : List Nat} :
    a ∈ setInsert b l ↔ a = b ∨ a ∈ l := by
  unfold setInsert
  by_cases hb : b ∈ l
  · simp only [if_pos hb]
    constructor
    · exact Or.inr
    · rintro (rfl | ha)
      · exact hb
      · exact ha
  · simp [if_neg hb]

theorem setInsert_of_mem {b : Nat} {l : List Nat} (h : b ∈ l) :
    setInsert b l = l := by
  simp [setInsert, h]

theorem nodup_setInsert {b : Nat} {l : List Nat} (h : l.Nodup) :
    (setInsert b l).Nodup := by
  unfold setInsert
  by_cases hb : b ∈ l
  · simpa [hb]
  · simp [hb, h]

theorem count_setInsert_self {b : Nat} {l : List Nat} (h : l.Nodup) :
    (setInsert b l).count b = 1 := by
  unfold setInsert
  by_cases hb : b ∈ l
  · simp only [if_pos hb]
    exact List.count_eq_one_of_mem h hb
  · simp only [if_neg hb, List.count_cons_self]
    rw [List.count_eq_zero_of_not_mem hb]

theorem hasTo_iff {r : Nat} {l : List Conn} :
    hasTo r l = true ↔ ∃ c ∈ l, c.dest = r := by
  simp [hasTo, List.any_eq_true]

theorem hasTo_filter_ne (r : Nat) (l : List Conn) :
    hasTo r (l.filter (fun c => c.dest != r)) = false := by
  rw [← Bool.not_eq_true, hasTo_iff]
  rintro ⟨c, hc, rfl⟩
  have hp := List.of_mem_filter hc
  simp at hp

theorem countTo_filter_ne (r : Nat) (l : List Conn) :
    countTo r (l.filter (fun c => c.dest != r)) = 0 := by
  simp only [countTo, List.countP_eq_zero, List.mem_filter, bne_iff_ne, beq_iff_eq]
  rintro c ⟨_, hne⟩
  exact hne

theorem dups_eq (o n : Nat) (l : List Conn) :
    dups o n l
      = (l.filter (fun c => c.dest == o)).map (fun c => ⟨n, c.handler⟩) := by
  induction l with
  | nil => rfl
  | cons c rest ih =>
      by_cases hd : c.dest = o
      · simp [dups, hd, List.filter_cons, ih]
      · simp [dups, hd, List.filter_cons, ih]

theorem emitList_eq_map {α : Type} (a : α) (l : List Conn) :
    emitList a l = l.map (fun c => ⟨c.dest, c.handler, a⟩) := by
  induction l with
  | nil => rfl
  | cons c rest ih => simp [emitList, ih]

theorem eraseFirstTo_decomp {r : Nat} {l : List Conn} (h : hasTo r l = true) :
    ∃ l₁ c l₂, l = l₁ ++ c :: l₂ ∧ c.dest = r ∧ (∀ c₀ ∈ l₁, c₀.dest ≠ r) ∧
      eraseFirstTo r l = l₁ ++ l₂ := by
  induction l with
  | nil => simp [hasTo] at h
  | cons c rest ih =>
      by_cases hd : c.dest = r
      · exact ⟨[], c, rest, by simp, hd, by simp, by simp [eraseFirstTo, hd]⟩
      · have hr : hasTo r rest = true := by
          obtain ⟨c₀, hc₀, hd₀⟩ := hasTo_iff.mp h
          rcases List.mem_cons.mp hc₀ with rfl | hmem
          · exact absurd hd₀ hd
          · exact hasTo_iff.mpr ⟨c₀, hmem, hd₀⟩
        obtain ⟨l₁, c₀, l₂, heq, hc₀, hnone, herase⟩ := ih hr
        refine ⟨c :: l₁, c₀, l₂, by simp [heq], hc₀, ?_, ?_⟩
        · intro x hx
          rcases List.mem_cons.mp hx with rfl | hx₁
          · exact hd
          · exact hnone x hx₁
        · simp [eraseFirstTo, hd, herase]

theorem mem_foldl_setInsert {a : Nat} (init l : List Nat) :
    a ∈ l.foldl (fun acc s => setInsert s acc) init ↔ a ∈ init ∨ a ∈ l := by
  induction l generalizing init with
  | nil => simp
  | cons b rest ih =>
      simp only [List.foldl_cons, ih, mem_setInsert, List.mem_cons]
      tauto

theorem updateFn_self {α : Type} (f : Nat → α) (k : Nat) :
    updateFn f k (f k) = f := by
  funext x
  by_cases hx : x = k <;> simp [updateFn, hx]

/-! ### Sample states -/

/-- Emitter 0 connected once to receiver 5 with handler 0. -/
def stOne : St := Connect 0 5 0 St.empty

/-- Emitter 0 connected twice to receiver 5 (handlers 0 and 1). -/
def stTwo : St := Connect 0 5 1 (Connect 0 5 0 St.empty)

/-! ### Claims -/

/-- C1 (code bug evidence): connect emitter 0 to receiver 5 twice, then call
`Disconnect` once.  A record targeting 5 remains in emitter 0's list, yet
emitter 0 has been erased from receiver 5's senders — `Signal::Disconnect`
calls `SignalDisconnect` unconditionally after erasing only the first
matching record, so the bidirectional bookkeeping invariant is broken and
the receiver/emitter relationship does not persist. -/
theorem disconnect_breaks_invariant :
    (Disconnect 0 5 stTwo).emitters 0 = [⟨5, 1⟩]
    ∧ (0 : Nat) ∉ (Disconnect 0 5 stTwo).senders 5
    ∧ ¬ Inv (Disconnect 0 5 stTwo) := by
  refine ⟨by decide, by decide, fun hinv => ?_⟩
  have hmem := hinv 0 5 (by decide)
  revert hmem
  decide

/-- C3: `Emit` produces exactly one invocation per connection record, in
list (= registration) order, each carrying the emitted arguments; and
`Connect` appends the new record after all existing ones, preserving the
prior order. -/
theorem emit_dispatch_order {α : Type} (st : St) (a : α) (e r h : Nat) :
    (Emit e a st).length = (st.emitters e).length
    ∧ (∀ i : Nat, (Emit e a st)[i]? =
        ((st.emitters e)[i]?).map (fun c => ⟨c.dest, c.handler, a⟩))
    ∧ (Connect e r h st).emitters e = st.emitters e ++ [⟨r, h⟩] := by
  refine ⟨?_, ?_, ?_⟩
  · simp [Emit, emitList_eq_map]
  · intro i
    simp [Emit, emitList_eq_map, List.getElem?_map]
  · simp [Connect, signalConnect]

/-- C9: `Disconnect` on a receiver with no matching record leaves the whole
state unchanged (no record erased, `SignalDisconnect` never called), and
`Emit` on an emitter with an empty connection list invokes no handler. -/
theorem disconnect_noop_emit_empty {α : Type} (st : St) (e f r : Nat) (a : α)
    (hno : hasTo r (st.emitters e) = false) (hemp : st.emitters f = []) :
    Disconnect e r st = st ∧ Emit f a st = [] := by
  constructor
  · simp [Disconnect, hno]
  · simp [Emit, hemp, emitList]

/-- C9 witness at the empty state. -/
theorem disconnect_noop_emit_empty_witness :
    (hasTo 5 (St.empty.emitters 0) = false ∧ St.empty.emitters 1 = [])
    ∧ (Disconnect 0 5 St.empty = St.empty ∧ Emit 1 () St.empty = []) :=
  ⟨⟨by decide, rfl⟩,
    disconnect_noop_emit_empty St.empty 0 1 5 () (by decide) rfl⟩

/-- C10: `Signal::SlotDisconnect` mutates only the calling emitter's own
connection list: every receiver's senders set and every other emitter's
list are untouched, while no record targeting the receiver survives in the
calling emitter's list — so the emitter is still registered in the
receiver's senders afterwards, despite holding no record targeting it. -/
theorem slotdisconnect_frame (st : St) (e r : Nat) (he : e ∈ st.senders r) :
    (SlotDisconnect e r st).senders = st.senders
    ∧ (∀ f, f ≠ e → (SlotDisconnect e r st).emitters f = st.emitters f)
    ∧ hasTo r ((SlotDisconnect e r st).emitters e) = false
    ∧ e ∈ (SlotDisconnect e r st).senders r := by
  refine ⟨rfl, ?_, ?_, he⟩
  · intro f hf
    exact updateFn_other _ _ hf
  · simp [SlotDisconnect, hasTo_filter_ne]

/-- C10 witness: one connection from emitter 0 to receiver 5. -/
theorem slotdisconnect_frame_witness :
    ((0 : Nat) ∈ stOne.senders 5)
    ∧ ((SlotDisconnect 0 5 stOne).senders = stOne.senders
      ∧ (∀ f, f ≠ 0 → (SlotDisconnect 0 5 stOne).emitters f = stOne.emitters f)
      ∧ hasTo 5 ((SlotDisconnect 0 5 stOne).emitters 0) = false
      ∧ (0 : Nat) ∈ (SlotDisconnect 0 5 stOne).senders 5) :=
  ⟨by decide, slotdisconnect_frame stOne 0 5 (by decide)⟩

/-- C4: when at least one record targets `r`, `Disconnect` removes exactly
the first record (in list order) targeting `r`, leaving every other record
and their relative order unchanged, while `SlotDisconnect` removes every
record targeting `r` and no record targeting any other receiver. -/
theorem disconnect_selective_slotdisconnect_exhaustive (st : St) (e r : Nat)
    (hk : hasTo r (st.emitters e) = true) :
    (∃ l₁ c l₂, st.emitters e = l₁ ++ c :: l₂ ∧ c.dest = r
        ∧ (∀ c₀ ∈ l₁, c₀.dest ≠ r)
        ∧ (Disconnect e r st).emitters e = l₁ ++ l₂)
    ∧ (∀ c ∈ (SlotDisconnect e r st).emitters e, c.dest ≠ r)
    ∧ ((SlotDisconnect e r st).emitters e).Sublist (st.emitters e)
    ∧ (∀ c : Conn, c.dest ≠ r →
        ((SlotDisconnect e r st).emitters e).count c = (st.emitters e).count c) := by
  refine ⟨?_, ?_, ?_, ?_⟩
  · obtain ⟨l₁, c, l₂, heq, hc, hnone, herase⟩ := eraseFirstTo_decomp hk
    refine ⟨l₁, c, l₂, heq, hc, hnone, ?_⟩
    simp [Disconnect, hk, signalDisconnect, herase]
  · intro c hc
    simp only [SlotDisconnect, updateFn_same] at hc
    have hp := List.of_mem_filter hc
    simpa using hp
  · simp only [SlotDisconnect, updateFn_same]
    exact List.filter_sublist _
  · intro c hcr
    simp only [SlotDisconnect, updateFn_same]
    exact List.count_filter (by simpa using hcr)

/-- C4 witness: two records from emitter 0 to receiver 5. -/
theorem disconnect_selective_slotdisconnect_exhaustive_witness :
    hasTo 5 (stTwo.emitters 0) = true
    ∧ ((∃ l₁ c l₂, stTwo.emitters 0 = l₁ ++ c :: l₂ ∧ c.dest = 5
        ∧ (∀ c₀ ∈ l₁, c₀.dest ≠ 5)
        ∧ (Disconnect 0 5 stTwo).emitters 0 = l₁ ++ l₂)
      ∧ (∀ c ∈ (SlotDisconnect 0 5 stTwo).emitters 0, c.dest ≠ 5)
      ∧ ((SlotDisconnect 0 5 stTwo).emitters 0).Sublist (stTwo.emitters 0)
      ∧ (∀ c : Conn, c.dest ≠ 5 →
          ((SlotDisconnect 0 5 stTwo).emitters 0).count c = (stTwo.emitters 0).count c)) :=
  ⟨by decide, disconnect_selective_slotdisconnect_exhaustive stTwo 0 5 (by decide)⟩

/-- C5: `SlotDuplicate(oldReceiver, newReceiver)` appends, after all the
pre-existing records (which are left unchanged, as is every senders set and
every other emitter's list), exactly one new record per record targeting
`oldReceiver`, in list order, each targeting `newReceiver` with the same
handler binding. -/
theorem slotduplicate_appends (st : St) (e o n : Nat) (hne : o ≠ n) :
    (SlotDuplicate e o n st).emitters e
      = st.emitters e
        ++ ((st.emitters e).filter (fun c => c.dest == o)).map
            (fun c => ⟨n, c.handler⟩)
    ∧ (SlotDuplicate e o n st).senders = st.senders
    ∧ (∀ f, f ≠ e → (SlotDuplicate e o n st).emitters f = st.emitters f) := by
  refine ⟨?_, rfl, ?_⟩
  · simp [SlotDuplicate, dups_eq]
  · intro f hf
    exact updateFn_other _ _ hf

/-- C5 witness: duplicate emitter 0's records targeting 5 onto receiver 6. -/
theorem slotduplicate_appends_witness :
    (5 : Nat) ≠ 6
    ∧ ((SlotDuplicate 0 5 6 stTwo).emitters 0
        = stTwo.emitters 0
          ++ ((stTwo.emitters 0).filter (fun c => c.dest == 5)).map
              (fun c => ⟨6, c.handler⟩)
      ∧ (SlotDuplicate 0 5 6 stTwo).senders = stTwo.senders
      ∧ (∀ f, f ≠ 0 → (SlotDuplicate 0 5 6 stTwo).emitters f = stTwo.emitters f)) :=
  ⟨by decide, slotduplicate_appends stTwo 0 5 6 (by decide)⟩

/-- C8: `SignalConnect` on an already-registered emitter leaves the whole
state unchanged, and the senders set stays duplicate-free with the emitter
counted exactly once even when `Connect` adds a further connection record
toward the same receiver. -/
theorem signalconnect_idempotent (st : St) (e r h : Nat)
    (hmem : e ∈ st.senders r) (hnd : (st.senders r).Nodup) :
    signalConnect r e st = st
    ∧ ((Connect e r h st).senders r).Nodup
    ∧ ((Connect e r h st).senders r).count e = 1 := by
  refine ⟨?_, ?_, ?_⟩
  · simp only [signalConnect, setInsert_of_mem hmem, updateFn_self]
  · simp only [Connect, signalConnect, updateFn_same]
    exact nodup_setInsert hnd
  · simp only [Connect, signalConnect, updateFn_same]
    exact count_setInsert_self hnd

/-- C8 witness: emitter 0 already registered at receiver 5. -/
theorem signalconnect_idempotent_witness :
    ((0 : Nat) ∈ stOne.senders 5 ∧ (stOne.senders 5).Nodup)
    ∧ (signalConnect 5 0 stOne = stOne
      ∧ ((Connect 0 5 3 stOne).senders 5).Nodup
      ∧ ((Connect 0 5 3 stOne).senders 5).count 0 = 1) :=
  ⟨⟨by decide, by decide⟩, signalconnect_idempotent stOne 0 5 3 (by decide) (by decide)⟩

/-- C2: destruction safety in both directions.  With emitter `e` connected
to receiver `r` (a record targets `r` and `e` is registered in `r`'s
duplicate-free senders set): destroying `r` leaves `e` with zero records
targeting `r` and a subsequent `Emit` on `e` performs no invocation whose
dest is `r`; destroying `e` removes `e` from `r`'s senders, so `r`'s own
later destruction has no `e` left to notify. -/
theorem destruction_safety {α : Type} (st : St) (e r : Nat) (a : α)
    (he : e ∈ st.senders r) (hc : hasTo r (st.emitters e) = true)
    (hnd : (st.senders r).Nodup) :
    countTo r ((destroyReceiver r st).emitters e) = 0
    ∧ (∀ inv ∈ Emit e a (destroyReceiver r st), inv.dest ≠ r)
    ∧ e ∉ (destroyEmitter e st).senders r := by
  refine ⟨?_, ?_, ?_⟩
  · simp only [destroyReceiver, he, if_true, eq_self_iff_true, if_pos]
    exact countTo_filter_ne r _
  · intro inv hinv
    simp only [Emit, destroyReceiver, he, if_pos, emitList_eq_map,
      List.mem_map] at hinv
    obtain ⟨c, hcmem, rfl⟩ := hinv
    have hp := List.of_mem_filter hcmem
    simpa using hp
  · simp only [destroyEmitter, hc, if_true]
    exact hnd.not_mem_erase

/-- C2 witness: one connection from emitter 0 to receiver 5. -/
theorem destruction_safety_witness :
    ((0 : Nat) ∈ stOne.senders 5 ∧ hasTo 5 (stOne.emitters 0) = true
      ∧ (stOne.senders 5).Nodup)
    ∧ (countTo 5 ((destroyReceiver 5 stOne).emitters 0) = 0
      ∧ (∀ inv ∈ Emit 0 () (destroyReceiver 5 stOne), inv.dest ≠ 5)
      ∧ (0 : Nat) ∉ (destroyEmitter 0 stOne).senders 5) :=
  ⟨⟨by decide, by decide, by decide⟩,
    destruction_safety stOne 0 5 () (by decide) (by decide) (by decide)⟩

/-- C6: copy-constructing receiver `r` into a fresh receiver `r2` makes
every emitter registered at `r` append duplicate records targeting `r2`
with the same handlers, registers each such emitter into `r2`'s senders,
and leaves `r`'s senders unchanged; a subsequent `Emit` on such an emitter
invokes both `r`'s and `r2`'s handlers, and destroying `r` afterwards
leaves `r2`'s registration and duplicated records intact. -/
theorem receiver_copy_duplicates {α : Type} (st : St) (e r r2 : Nat) (a : α)
    (hfresh : st.senders r2 = []) (hne : r2 ≠ r) (he : e ∈ st.senders r) :
    ((copyReceiver r r2 st).emitters e
        = st.emitters e
          ++ ((st.emitters e).filter (fun c => c.dest == r)).map
              (fun c => ⟨r2, c.handler⟩))
    ∧ (∀ f, f ∈ st.senders r → f ∈ (copyReceiver r r2 st).senders r2)
    ∧ (copyReceiver r r2 st).senders r = st.senders r
    ∧ (∀ h₀, (⟨r, h₀⟩ : Conn) ∈ st.emitters e →
        (⟨r, h₀, a⟩ : Invocation α) ∈ Emit e a (copyReceiver r r2 st)
        ∧ (⟨r2, h₀, a⟩ : Invocation α) ∈ Emit e a (copyReceiver r r2 st))
    ∧ e ∈ (destroyReceiver r (copyReceiver r r2 st)).senders r2
    ∧ (∀ h₀, (⟨r, h₀⟩ : Conn) ∈ st.emitters e →
        (⟨r2, h₀⟩ : Conn) ∈ (destroyReceiver r (copyReceiver r r2 st)).emitters e) := by
  have hmem2 : ∀ f, f ∈ st.senders r → f ∈ (copyReceiver r r2 st).senders r2 := by
    intro f hf
    simp only [copyReceiver, updateFn_same, mem_foldl_setInsert]
    exact Or.inr hf
  have hsr : (copyReceiver r r2 st).senders r = st.senders r :=
    updateFn_other _ _ hne.symm
  have hdup : ∀ h₀, (⟨r, h₀⟩ : Conn) ∈ st.emitters e →
      (⟨r2, h₀⟩ : Conn) ∈ dups r r2 (st.emitters e) := by
    intro h₀ hm
    rw [dups_eq]
    exact List.mem_map.mpr ⟨⟨r, h₀⟩, List.mem_filter.mpr ⟨hm, by simp⟩, rfl⟩
  refine ⟨?_, hmem2, hsr, ?_, ?_, ?_⟩
  · simp [copyReceiver, he, dups_eq]
  · intro h₀ hm
    constructor
    · simp only [Emit, copyReceiver, he, if_pos, emitList_eq_map, List.mem_map]
      exact ⟨⟨r, h₀⟩, List.mem_append_left _ hm, rfl⟩
    · simp only [Emit, copyReceiver, he, if_pos, emitList_eq_map, List.mem_map]
      exact ⟨⟨r2, h₀⟩, List.mem_append_right _ (hdup h₀ hm), rfl⟩
  · show e ∈ updateFn (copyReceiver r r2 st).senders r [] r2
    rw [updateFn_other _ _ hne]
    exact hmem2 e he
  · intro h₀ hm
    have hesr : e ∈ (copyReceiver r r2 st).senders r := hsr ▸ he
    simp only [destroyReceiver, hesr, if_pos]
    refine List.mem_filter.mpr ⟨?_, by simpa using hne⟩
    simp only [copyReceiver, he, if_pos]
    exact List.mem_append_right _ (hdup h₀ hm)

/-- C6 witness: emitter 0 connected to receiver 5, copied into fresh
receiver 6. -/
theorem receiver_copy_duplicates_witness :
    (stOne.senders 6 = [] ∧ (6 : Nat) ≠ 5 ∧ (0 : Nat) ∈ stOne.senders 5)
    ∧ (((copyReceiver 5 6 stOne).emitters 0
        = stOne.emitters 0
          ++ ((stOne.emitters 0).filter (fun c => c.dest == 5)).map
              (fun c => ⟨6, c.handler⟩))
      ∧ (∀ f, f ∈ stOne.senders 5 → f ∈ (copyReceiver 5 6 stOne).senders 6)
      ∧ (copyReceiver 5 6 stOne).senders 5 = stOne.senders 5
      ∧ (∀ h₀, (⟨5, h₀⟩ : Conn) ∈ stOne.emitters 0 →
          (⟨5, h₀, ()⟩ : Invocation Unit) ∈ Emit 0 () (copyReceiver 5 6 stOne)
          ∧ (⟨6, h₀, ()⟩ : Invocation Unit) ∈ Emit 0 () (copyReceiver 5 6 stOne))
      ∧ (0 : Nat) ∈ (destroyReceiver 5 (copyReceiver 5 6 stOne)).senders 6
      ∧ (∀ h₀, (⟨5, h₀⟩ : Conn) ∈ stOne.emitters 0 →
          (⟨6, h₀⟩ : Conn) ∈ (destroyReceiver 5 (copyReceiver 5 6 stOne)).emitters 0)) :=
  ⟨⟨by decide, by decide, by decide⟩,
    receiver_copy_duplicates stOne 0 5 6 () (by decide) (by decide) (by decide)⟩

/-- C7: copy-constructing emitter `e` into a fresh emitter `e2` gives `e2`
a cloned list equal to `e`'s (same targets, handlers and order), registers
`e2` into the senders set of every receiver targeted by `e`'s records, and
leaves `e`'s list and registrations unchanged; both emitters then produce
the same invocation trace, and destroying `e` afterwards leaves `e2`'s
list and registrations intact. -/
theorem emitter_copy_duplicates {α : Type} (st : St) (e e2 : Nat) (a : α)
    (hfresh : st.emitters e2 = []) (hne : e2 ≠ e) :
    ((copyEmitter e e2 st).emitters e2 = st.emitters e)
    ∧ ((copyEmitter e e2 st).emitters e = st.emitters e)
    ∧ (∀ c ∈ st.emitters e, e2 ∈ (copyEmitter e e2 st).senders c.dest)
    ∧ (∀ r, e ∈ (copyEmitter e e2 st).senders r ↔ e ∈ st.senders r)
    ∧ Emit e a (copyEmitter e e2 st) = Emit e a st
    ∧ Emit e2 a (copyEmitter e e2 st) = Emit e a st
    ∧ (destroyEmitter e (copyEmitter e e2 st)).emitters e2 = st.emitters e
    ∧ (∀ r, e2 ∈ (copyEmitter e e2 st).senders r →
        e2 ∈ (destroyEmitter e (copyEmitter e e2 st)).senders r) := by
  have hself : (copyEmitter e e2 st).emitters e2 = st.emitters e := by
    simp [copyEmitter, hfresh]
  have hother : (copyEmitter e e2 st).emitters e = st.emitters e :=
    updateFn_other _ _ hne.symm
  refine ⟨hself, hother, ?_, ?_, ?_, ?_, ?_, ?_⟩
  · intro c hc
    have ht : hasTo c.dest (st.emitters e) = true := hasTo_iff.mpr ⟨c, hc, rfl⟩
    simp only [copyEmitter, ht, if_true]
    exact mem_setInsert.mpr (Or.inl rfl)
  · intro r
    simp only [copyEmitter]
    by_cases ht : hasTo r (st.emitters e) = true
    · simp only [ht, if_true, mem_setInsert]
      constructor
      · rintro (heq | hm)
        · exact absurd heq.symm hne
        · exact hm
      · exact Or.inr
    · simp [ht]
  · simp [Emit, hother]
  · simp [Emit, hself]
  · show updateFn (copyEmitter e e2 st).emitters e [] e2 = st.emitters e
    rw [updateFn_other _ _ hne, hself]
  · intro r hm
    simp only [destroyEmitter]
    by_cases ht : hasTo r ((copyEmitter e e2 st).emitters e) = true
    · simp only [ht, if_true]
      exact (List.mem_erase_of_ne hne).mpr hm
    · simpa [ht] using hm

/-- C7 witness: emitter 0 connected to receiver 5, copied into fresh
emitter 1. -/
theorem emitter_copy_duplicates_witness :
    (stOne.emitters 1 = [] ∧ (1 : Nat) ≠ 0)
    ∧ (((copyEmitter 0 1 stOne).emitters 1 = stOne.emitters 0)
      ∧ ((copyEmitter 0 1 stOne).emitters 0 = stOne.emitters 0)
      ∧ (∀ c ∈ stOne.emitters 0, (1 : Nat) ∈ (copyEmitter 0 1 stOne).senders c.dest)
      ∧ (∀ r, (0 : Nat) ∈ (copyEmitter 0 1 stOne).senders r ↔ (0 : Nat) ∈ stOne.senders r)
      ∧ Emit 0 () (copyEmitter 0 1 stOne) = Emit 0 () stOne
      ∧ Emit 1 () (copyEmitter 0 1 stOne) = Emit 0 () stOne
      ∧ (destroyEmitter 0 (copyEmitter 0 1 stOne)).emitters 1 = stOne.emitters 0
      ∧ (∀ r, (1 : Nat) ∈ (copyEmitter 0 1 stOne).senders r →
          (1 : Nat) ∈ (destroyEmitter 0 (copyEmitter 0 1 stOne)).senders r)) :=
  ⟨⟨by decide, by decide⟩,
    emitter_copy_duplicates stOne 0 1 () (by decide) (by decide)⟩

end SigSlot
